import Mathlib

/-
Verification of the JSON matching engine of protoc-gen-mock (src/stub/model.go).

The Go code decodes JSON into map[string]interface{} / []interface{} /
float64 / string / bool / nil and compares two such trees with the
recursive function jsonStringMatches.  We embed that representation as the
inductive type JsonValue below, with objects as association lists (Go map
iteration order is unspecified; the list fixes one order, which is made
explicit wherever a theorem could depend on it).

Partiality: the Go code can panic at run time.  After a *successful*
recursive comparison of two nested objects, control falls through the
switch to the interface comparison `value != otherValue` whose operands
are two values of dynamic type map[string]interface{}; Go panics when
comparing interfaces holding uncomparable types (maps, slices).  The same
happens in the array search when two elements of dynamic type
[]interface{} reach `item == otherItem`.  We model a comparison that
panics as the result `none : Option Bool`; `some b` is a normal boolean
verdict.

JSON numbers are decoded by Go as float64.  No claim below depends on
IEEE-754 rounding, so numbers are embedded as exact rationals.
-/

namespace Stub

inductive JsonValue : Type where
  | null : JsonValue
  | bool (b : Bool) : JsonValue
  | num (x : Rat) : JsonValue
  | str (s : String) : JsonValue
  | arr (items : List JsonValue) : JsonValue
  | obj (fields : List (String × JsonValue)) : JsonValue

abbrev JObject := List (String × JsonValue)

/-- Map lookup `otherValue, found := otherJsonMap[key]` on the association
list embedding of a Go map (first binding wins; Go maps have unique keys). -/
def lookup (key : String) : JObject → Option JsonValue
  | [] => none
  | (k, v) :: rest => if k = key then some v else lookup key rest

/-- The Go dynamic type string `fmt.Sprintf("%T", v)` of a decoded JSON
value. -/
def typeString : JsonValue → String
  | JsonValue.null => "<nil>"
  | JsonValue.bool _ => "bool"
  | JsonValue.num _ => "float64"
  | JsonValue.str _ => "string"
  | JsonValue.arr _ => "[]interface \x7b\x7d"
  | JsonValue.obj _ => "map[string]interface \x7b\x7d"

/-- Go interface equality `value == otherValue` on two decoded JSON values.
When both operands hold the same uncomparable dynamic type (map or slice)
the comparison panics, modelled as `none`.  The code only evaluates it
after the dynamic type strings were found equal. -/
def interfaceEq : JsonValue → JsonValue → Option Bool
  | JsonValue.null, JsonValue.null => some true
  | JsonValue.bool a, JsonValue.bool b => some (a = b)
  | JsonValue.num a, JsonValue.num b => some (a = b)
  | JsonValue.str a, JsonValue.str b => some (a = b)
  | JsonValue.arr _, JsonValue.arr _ => none
  | JsonValue.obj _, JsonValue.obj _ => none
  | _, _ => some false

/-- Scalar (non-object, non-array) JSON values: those whose Go interface
comparison is total. -/
def isScalar : JsonValue → Bool
  | JsonValue.arr _ => false
  | JsonValue.obj _ => false
  | _ => true

mutual

/-- Embedding of jsonStringMatches (src/stub/model.go:106-167).
Result `none` models a run-time panic. -/
def jsonStringMatches (jsonMap otherJsonMap : JObject) (mustBeEqual : Bool) :
    Option Bool :=
  if mustBeEqual = true ∧ jsonMap.length ≠ otherJsonMap.length then some false
  else matchEntries jsonMap otherJsonMap mustBeEqual
termination_by (sizeOf jsonMap, 1)

/-- The `for key, value := range jsonMap` loop of jsonStringMatches, over
the remaining entries. -/
def matchEntries (entries otherJsonMap : JObject) (mustBeEqual : Bool) :
    Option Bool :=
  match entries with
  | [] => some true
  | (key, value) :: rest =>
    match entryStep key value otherJsonMap mustBeEqual with
    | none => none
    | some false => some false
    | some true => matchEntries rest otherJsonMap mustBeEqual
termination_by (sizeOf entries, 0)

/-- One iteration of the loop body of jsonStringMatches for entry
`(key, value)`: the lookup, the %T type comparison, the switch, and the
shared fall-through `if value != otherValue`.  `some true` means the loop
continues with the next entry; `some false` is `return false`; `none` is a
panic.  The `continue` in the array case skips the fall-through; the
object case has no `continue`, so a successful recursive call falls
through to the interface comparison of two maps, which panics. -/
def entryStep (key : String) (value : JsonValue) (otherJsonMap : JObject)
    (mustBeEqual : Bool) : Option Bool :=
  match lookup key otherJsonMap with
  | none => some false
  | some otherValue =>
    if typeString value ≠ typeString otherValue then some false
    else
      match value, otherValue with
      | JsonValue.obj o1, JsonValue.obj o2 =>
        match jsonStringMatches o1 o2 mustBeEqual with
        | none => none
        | some false => some false
        | some true =>
          match interfaceEq (JsonValue.obj o1) (JsonValue.obj o2) with
          | none => none
          | some false => some false
          | some true => some true
      | JsonValue.arr items, JsonValue.arr otherItems =>
        if items.length ≠ otherItems.length then some false
        else
          match matchArrayItems items otherItems mustBeEqual with
          | none => none
          | some false => some false
          | some true => some true
      | _, _ =>
        match interfaceEq value otherValue with
        | none => none
        | some false => some false
        | some true => some true
termination_by (sizeOf value, 2)

/-- The outer `for _, item := range items` of the array case: every
pattern element must be found in `otherItems`. -/
def matchArrayItems (items otherItems : List JsonValue) (mustBeEqual : Bool) :
    Option Bool :=
  match items with
  | [] => some true
  | item :: rest =>
    match searchItem item otherItems mustBeEqual with
    | none => none
    | some false => some false
    | some true => matchArrayItems rest otherItems mustBeEqual
termination_by (sizeOf items, 0)

/-- The switch body of the inner candidate loop: does candidate
`otherItem` match pattern element `item`?  Object pairs recurse into
jsonStringMatches; every other pair (the `default` case) reaches
`item == otherItem`, which panics (`none`) when both are slices.  The
code only evaluates it after the type strings were found equal. -/
def elemCompare (item otherItem : JsonValue) (mustBeEqual : Bool) :
    Option Bool :=
  match item, otherItem with
  | JsonValue.obj o1, JsonValue.obj o2 => jsonStringMatches o1 o2 mustBeEqual
  | a, b => interfaceEq a b
termination_by (sizeOf item, 0)

/-- The inner `for _, otherItem := range otherItems` search for one
pattern element.  A type-string mismatch `continue`s to the next
candidate; a matching candidate sets `found = true` and breaks; a
non-matching one is NOT removed from consideration for later pattern
elements. -/
def searchItem (item : JsonValue) (otherItems : List JsonValue)
    (mustBeEqual : Bool) : Option Bool :=
  match otherItems with
  | [] => some false
  | otherItem :: rest =>
    if typeString item ≠ typeString otherItem then
      searchItem item rest mustBeEqual
    else
      match elemCompare item otherItem mustBeEqual with
      | none => none
      | some true => some true
      | some false => searchItem item rest mustBeEqual
termination_by (sizeOf item, 1 + sizeOf otherItems)

end

/-- Matches (src/stub/model.go:90-96) at the decoded-object level:
jsonStringMatches with mustBeEqual = false. -/
def Matches (j other : JObject) : Option Bool :=
  jsonStringMatches j other false

/-- Equals (src/stub/model.go:98-104) at the decoded-object level:
jsonStringMatches with mustBeEqual = true. -/
def Equals (j other : JObject) : Option Bool :=
  jsonStringMatches j other true

/-- Result of `json.Unmarshal([]byte(text), jsonMap)` as performed by
Matches and Equals, abstracted by its outcome: encoding/json validates the
whole input before decoding, so on any parse error the freshly allocated
map is left untouched (nil, which ranges as the empty map).  The `Except`
argument stands for the parse outcome of the raw text. -/
def unmarshalledMap (parseResult : Except String JObject) : JObject :=
  match parseResult with
  | Except.ok m => m
  | Except.error _ => []

/-- Matches at the text level (src/stub/model.go:90-96): the error return
of json.Unmarshal is discarded for both operands, and the comparator runs
on whatever maps resulted. -/
def MatchesText (j other : Except String JObject) : Option Bool :=
  jsonStringMatches (unmarshalledMap j) (unmarshalledMap other) false

/-- Equals at the text level (src/stub/model.go:98-104), same error
handling as MatchesText. -/
def EqualsText (j other : Except String JObject) : Option Bool :=
  jsonStringMatches (unmarshalledMap j) (unmarshalledMap other) true

/-- The (value, error) pair returned by a Go function. -/
structure GoResult (α : Type) where
  val : α
  err : Option String

/-- JsonString.UnmarshalJSON (src/stub/model.go:71-80), abstracted over
the outcome of json.Compact: on a compaction error it only logs; the
receiver is set from the (empty) buffer and the returned error is nil in
every case. -/
def unmarshalJsonString (compactResult : Except String String) :
    GoResult String :=
  match compactResult with
  | Except.ok s => { val := s, err := none }
  | Except.error _ => { val := "", err := none }

/-- JsonString.MarshalJSON (src/stub/model.go:82-88): an empty wrapped
string serializes as the empty object, anything else is returned
unchanged; the error is always nil. -/
def MarshalJSON (j : String) : GoResult String :=
  if j = "" then { val := "\x7b\x7d", err := none }
  else { val := j, err := none }

/-- Replace the value bound to `key` (first binding) in an association
list, leaving the list unchanged when the key is absent.  Used to state
what happens when one field of a target object is modified. -/
def updateKey (key : String) (v : JsonValue) : JObject → JObject
  | [] => []
  | (k, w) :: rest =>
    if k = key then (k, v) :: rest else (k, w) :: updateKey key v rest

/-- Induction hypothesis shape for the strict-implies-subset argument:
every strictly smaller pattern object that strictly matches some target
never panics in Subset mode and loosely matches that same target. -/
def IHprop (N : Nat) : Prop :=
  ∀ o : JObject, sizeOf o < N →
    ∀ t, jsonStringMatches o t true = some true →
      (∀ d, jsonStringMatches o d false ≠ none) ∧
        jsonStringMatches o t false = some true

/- Helper lemmas: one-step equations and inversion principles for the
mutually recursive comparator, plus facts about type strings and
interface equality. -/

theorem lookup_nil (k : String) : lookup k ([] : JObject) = none := rfl

theorem lookup_cons (k k1 : String) (v : JsonValue) (rest : JObject) :
    lookup k ((k1, v) :: rest) = if k1 = k then some v else lookup k rest :=
  rfl

theorem typeString_eq_obj {o1 : JObject} {w : JsonValue}
    (h : typeString (JsonValue.obj o1) = typeString w) :
    ∃ o2, w = JsonValue.obj o2 := by
  cases w <;> simp [typeString] at h ⊢

theorem typeString_eq_arr {items : List JsonValue} {w : JsonValue}
    (h : typeString (JsonValue.arr items) = typeString w) :
    ∃ other, w = JsonValue.arr other := by
  cases w <;> simp [typeString] at h ⊢

theorem isScalar_of_typeString_eq {v w : JsonValue} (hs : isScalar v = true)
    (h : typeString v = typeString w) : isScalar w = true := by
  cases v <;> cases w <;> simp_all [isScalar, typeString]

theorem interfaceEq_scalar_ne_none {v w : JsonValue} (hs : isScalar v = true)
    (h : typeString v = typeString w) : interfaceEq v w ≠ none := by
  cases v <;> cases w <;> simp_all [isScalar, typeString, interfaceEq]

theorem interfaceEq_self_scalar {v : JsonValue} (hs : isScalar v = true) :
    interfaceEq v v = some true := by
  cases v <;> simp_all [isScalar, interfaceEq]

theorem interfaceEq_scalar_true {v w : JsonValue} (hs : isScalar v = true)
    (h : interfaceEq v w = some true) : v = w := by
  cases v <;> cases w <;> simp_all [isScalar, interfaceEq]

theorem typeString_eq_of_interfaceEq_true {v w : JsonValue}
    (h : interfaceEq v w = some true) : typeString v = typeString w := by
  cases v <;> cases w <;> simp_all [interfaceEq, typeString]

theorem jsonStringMatches_false_mode (p t : JObject) :
    jsonStringMatches p t false = matchEntries p t false := by
  simp [jsonStringMatches]

theorem jsonStringMatches_len_ne {p t : JObject} (h : p.length ≠ t.length) :
    jsonStringMatches p t true = some false := by
  simp [jsonStringMatches, h]

theorem jsonStringMatches_len_eq {p t : JObject} (h : p.length = t.length) :
    jsonStringMatches p t true = matchEntries p t true := by
  simp [jsonStringMatches, h]

theorem matchEntries_nil (t : JObject) (m : Bool) :
    matchEntries [] t m = some true := by
  simp [matchEntries]

theorem matchEntries_cons_none {k : String} {v : JsonValue} {t : JObject}
    {m : Bool} (rest : JObject) (h : entryStep k v t m = none) :
    matchEntries ((k, v) :: rest) t m = none := by
  simp [matchEntries, h]

theorem matchEntries_cons_false {k : String} {v : JsonValue} {t : JObject}
    {m : Bool} (rest : JObject) (h : entryStep k v t m = some false) :
    matchEntries ((k, v) :: rest) t m = some false := by
  simp [matchEntries, h]

theorem matchEntries_cons_true {k : String} {v : JsonValue} {t : JObject}
    {m : Bool} (rest : JObject) (h : entryStep k v t m = some true) :
    matchEntries ((k, v) :: rest) t m = matchEntries rest t m := by
  simp [matchEntries, h]

theorem matchEntries_cons_true_iff {k : String} {v : JsonValue}
    {rest t : JObject} {m : Bool} :
    matchEntries ((k, v) :: rest) t m = some true ↔
      entryStep k v t m = some true ∧ matchEntries rest t m = some true := by
  rcases h : entryStep k v t m with _ | b
  · simp [matchEntries_cons_none rest h]
  · cases b
    · simp [matchEntries_cons_false rest h]
    · simp [matchEntries_cons_true rest h, h]

theorem matchArrayItems_nil (other : List JsonValue) (m : Bool) :
    matchArrayItems [] other m = some true := by
  simp [matchArrayItems]

theorem matchArrayItems_cons_none {x : JsonValue} {other : List JsonValue}
    {m : Bool} (rest : List JsonValue) (h : searchItem x other m = none) :
    matchArrayItems (x :: rest) other m = none := by
  simp [matchArrayItems, h]

theorem matchArrayItems_cons_false {x : JsonValue} {other : List JsonValue}
    {m : Bool} (rest : List JsonValue) (h : searchItem x other m = some false) :
    matchArrayItems (x :: rest) other m = some false := by
  simp [matchArrayItems, h]

theorem matchArrayItems_cons_true {x : JsonValue} {other : List JsonValue}
    {m : Bool} (rest : List JsonValue) (h : searchItem x other m = some true) :
    matchArrayItems (x :: rest) other m = matchArrayItems rest other m := by
  simp [matchArrayItems, h]

theorem matchArrayItems_cons_true_iff {x : JsonValue}
    {rest other : List JsonValue} {m : Bool} :
    matchArrayItems (x :: rest) other m = some true ↔
      searchItem x other m = some true ∧ matchArrayItems rest other m = some true := by
  rcases h : searchItem x other m with _ | b
  · simp [matchArrayItems_cons_none rest h]
  · cases b
    · simp [matchArrayItems_cons_false rest h]
    · simp [matchArrayItems_cons_true rest h, h]

theorem searchItem_nil (x : JsonValue) (m : Bool) :
    searchItem x [] m = some false := by
  simp [searchItem]

theorem searchItem_cons_skip {x y : JsonValue} (rest : List JsonValue)
    (m : Bool) (h : typeString x ≠ typeString y) :
    searchItem x (y :: rest) m = searchItem x rest m := by
  simp [searchItem, h]

theorem searchItem_cons_none {x y : JsonValue} {m : Bool}
    (rest : List JsonValue) (ht : typeString x = typeString y)
    (he : elemCompare x y m = none) : searchItem x (y :: rest) m = none := by
  simp [searchItem, ht, he]

theorem searchItem_cons_found {x y : JsonValue} {m : Bool}
    (rest : List JsonValue) (ht : typeString x = typeString y)
    (he : elemCompare x y m = some true) :
    searchItem x (y :: rest) m = some true := by
  simp [searchItem, ht, he]

theorem searchItem_cons_miss {x y : JsonValue} {m : Bool}
    (rest : List JsonValue) (ht : typeString x = typeString y)
    (he : elemCompare x y m = some false) :
    searchItem x (y :: rest) m = searchItem x rest m := by
  simp [searchItem, ht, he]

theorem elemCompare_obj (o1 o2 : JObject) (m : Bool) :
    elemCompare (JsonValue.obj o1) (JsonValue.obj o2) m =
      jsonStringMatches o1 o2 m := by
  simp [elemCompare]

theorem elemCompare_scalar {a : JsonValue} (b : JsonValue) (m : Bool)
    (hs : isScalar a = true) : elemCompare a b m = interfaceEq a b := by
  cases a <;> simp_all [elemCompare, isScalar]

theorem elemCompare_arr (a b : List JsonValue) (m : Bool) :
    elemCompare (JsonValue.arr a) (JsonValue.arr b) m = none := by
  simp [elemCompare, interfaceEq]

theorem entryStep_not_found {k : String} {t : JObject} (v : JsonValue)
    (m : Bool) (h : lookup k t = none) : entryStep k v t m = some false := by
  simp [entryStep, h]

theorem entryStep_type_ne {k : String} {t : JObject} {v w : JsonValue}
    (m : Bool) (h : lookup k t = some w)
    (hne : typeString v ≠ typeString w) : entryStep k v t m = some false := by
  simp [entryStep, h, hne]

theorem entryStep_obj {k : String} {t : JObject} {o2 : JObject}
    (o1 : JObject) (m : Bool) (h : lookup k t = some (JsonValue.obj o2)) :
    entryStep k (JsonValue.obj o1) t m =
      match jsonStringMatches o1 o2 m with
      | none => none
      | some false => some false
      | some true => none := by
  rcases hr : jsonStringMatches o1 o2 m with _ | b
  · simp [entryStep, h, typeString, interfaceEq, hr]
  · cases b <;> simp [entryStep, h, typeString, interfaceEq, hr]

theorem entryStep_arr {k : String} {t : JObject} {other : List JsonValue}
    (items : List JsonValue) (m : Bool)
    (h : lookup k t = some (JsonValue.arr other)) :
    entryStep k (JsonValue.arr items) t m =
      if items.length ≠ other.length then some false
      else matchArrayItems items other m := by
  by_cases hl : items.length = other.length
  · rcases hr : matchArrayItems items other m with _ | b
    · simp [entryStep, h, typeString, hr, hl]
    · cases b <;> simp [entryStep, h, typeString, hr, hl]
  · simp [entryStep, h, typeString, hl]

theorem entryStep_scalar {k : String} {t : JObject} {v w : JsonValue}
    (m : Bool) (hs : isScalar v = true) (h : lookup k t = some w)
    (ht : typeString v = typeString w) : entryStep k v t m = interfaceEq v w := by
  rcases he : interfaceEq v w with _ | b
  · exact absurd he (interfaceEq_scalar_ne_none hs ht)
  · cases b <;> (cases v <;> cases w <;>
      simp_all [entryStep, isScalar, typeString, interfaceEq])

theorem entryStep_obj_ne_true (k : String) (o1 : JObject) (t : JObject)
    (m : Bool) : entryStep k (JsonValue.obj o1) t m ≠ some true := by
  rcases hl : lookup k t with _ | w
  · simp [entryStep_not_found _ m hl]
  · by_cases ht : typeString (JsonValue.obj o1) = typeString w
    · obtain ⟨o2, rfl⟩ := typeString_eq_obj ht
      rw [entryStep_obj o1 m hl]
      rcases hr : jsonStringMatches o1 o2 m with _ | b
      · simp
      · cases b <;> simp
    · simp [entryStep_type_ne m hl ht]

theorem matchEntries_true_lookup :
    ∀ {entries : JObject} {t : JObject} {m : Bool} {k : String} {v : JsonValue},
      matchEntries entries t m = some true → lookup k entries = some v →
      entryStep k v t m = some true := by
  intro entries
  induction entries with
  | nil => intro t m k v _ hl; simp [lookup] at hl
  | cons hd rest ih =>
    obtain ⟨k1, v1⟩ := hd
    intro t m k v h hl
    rw [matchEntries_cons_true_iff] at h
    rw [lookup_cons] at hl
    by_cases hk : k1 = k
    · subst hk
      rw [if_pos rfl] at hl
      cases hl
      exact h.1
    · rw [if_neg hk] at hl
      exact ih h.2 hl

theorem jsonStringMatches_true_length {p t : JObject}
    (h : jsonStringMatches p t true = some true) : p.length = t.length := by
  by_cases hl : p.length = t.length
  · exact hl
  · rw [jsonStringMatches_len_ne hl] at h
    simp at h

theorem matchEntries_of_true {p t : JObject} {m : Bool}
    (h : jsonStringMatches p t m = some true) : matchEntries p t m = some true := by
  cases m
  · rwa [jsonStringMatches_false_mode] at h
  · rwa [jsonStringMatches_len_eq (jsonStringMatches_true_length h)] at h

theorem jsonStringMatches_no_gate {p t : JObject} {m : Bool}
    (h : m = true → p.length = t.length) :
    jsonStringMatches p t m = matchEntries p t m := by
  cases m
  · exact jsonStringMatches_false_mode p t
  · exact jsonStringMatches_len_eq (h rfl)

/-- C3: the array search never consumes a matched candidate: for pattern
field k mapping to [1,1] and target field k mapping to [1,2], the length
check passes (2 == 2), the single target value 1 satisfies both pattern
elements, and both Matches and Equals return true. -/
theorem c3_no_candidate_consumption :
    Matches [("k", JsonValue.arr [JsonValue.num 1, JsonValue.num 1])]
        [("k", JsonValue.arr [JsonValue.num 1, JsonValue.num 2])] = some true ∧
      Equals [("k", JsonValue.arr [JsonValue.num 1, JsonValue.num 1])]
        [("k", JsonValue.arr [JsonValue.num 1, JsonValue.num 2])] = some true := by
  constructor <;>
    simp [Matches, Equals, jsonStringMatches, matchEntries, entryStep,
      matchArrayItems, searchItem, elemCompare, lookup, typeString, interfaceEq]

/-- C4: reflexivity of Strict mode fails on the code: for the well-formed
object a = ("k" mapping to the empty nested object), equals(a, a) does not
return true; the successful recursive comparison of the two empty nested
objects falls through to the interface comparison of two maps and the
call panics (modelled as `none`). -/
theorem c4_reflexivity_panics :
    Equals [("k", JsonValue.obj [])] [("k", JsonValue.obj [])] = none := by
  simp [Equals, jsonStringMatches, matchEntries, entryStep, lookup,
    typeString, interfaceEq]

/-- C10: MarshalJSON is total (the returned error is always nil), maps the
empty wrapped string to the two-character text of the empty object, and
returns any other wrapped string unchanged. -/
theorem c10_marshal_total :
    ∀ j : String, (MarshalJSON j).err = none ∧
      (j = "" → (MarshalJSON j).val = "\x7b\x7d") ∧
      (j ≠ "" → (MarshalJSON j).val = j) := by
  intro j
  by_cases h : j = "" <;> simp [MarshalJSON, h]

theorem c10_marshal_total_witness :
    (MarshalJSON "").err = none ∧ (MarshalJSON "").val = "\x7b\x7d" ∧
      (MarshalJSON "ab").val = "ab" :=
  ⟨(c10_marshal_total "").1, (c10_marshal_total "").2.1 rfl,
    (c10_marshal_total "ab").2.2 (by decide)⟩

/-- C2 counterexample: an operand whose text failed to parse does not
stop the comparison; Matches still produces a boolean verdict, namely
true, because the failed unmarshal leaves the pattern map empty. -/
theorem c2_counterexample :
    MatchesText (Except.error "bad input") (Except.ok []) = some true := by
  simp [MatchesText, unmarshalledMap, jsonStringMatches, matchEntries]

/-- C2 (amended): parse failures are swallowed, not propagated.
JsonString.UnmarshalJSON logs a compaction error and returns a nil error
in every case, and Matches/Equals discard the json.Unmarshal error and
always invoke the comparator on whatever map resulted (empty on failure),
so a failed parse is converted into an ordinary boolean verdict: a
malformed pattern behaves as the empty object, Matches returns true
against every target, and Equals returns a boolean verdict as well. -/
theorem c2_parse_errors_swallowed :
    (∀ r : Except String String, (unmarshalJsonString r).err = none) ∧
      (∀ (e : String) (t : Except String JObject),
        MatchesText (Except.error e) t = some true) ∧
      ∀ (e : String) (t : Except String JObject),
        ∃ b : Bool, EqualsText (Except.error e) t = some b := by
  refine ⟨?_, ?_, ?_⟩
  · intro r
    cases r <;> simp [unmarshalJsonString]
  · intro e t
    simp [MatchesText, unmarshalledMap, jsonStringMatches, matchEntries]
  · intro e t
    by_cases h : (unmarshalledMap (Except.error e)).length =
        (unmarshalledMap t).length
    · exact ⟨true, by
        rw [EqualsText, jsonStringMatches_len_eq h]
        exact matchEntries_nil _ _⟩
    · exact ⟨false, by rw [EqualsText, jsonStringMatches_len_ne h]⟩

/-- C1 counterexample: the claim quantifies over every pair of objects
with a successfully-recursing nested-object key, but when an earlier
entry of the pattern fails, the loop returns false before the
nested-object entry is reached, so a verdict IS returned: here key "k"
maps to nested objects on both sides and the recursion on them succeeds,
yet the verdict is false because entry "a" differs. -/
theorem c1_counterexample :
    lookup "k" [("a", JsonValue.num 1), ("k", JsonValue.obj [])] =
        some (JsonValue.obj []) ∧
      lookup "k" [("a", JsonValue.num 2), ("k", JsonValue.obj [])] =
        some (JsonValue.obj []) ∧
      jsonStringMatches [] [] false = some true ∧
      Matches [("a", JsonValue.num 1), ("k", JsonValue.obj [])]
        [("a", JsonValue.num 2), ("k", JsonValue.obj [])] = some false := by
  refine ⟨by simp [lookup], by simp [lookup],
    by simp [jsonStringMatches, matchEntries], ?_⟩
  simp [Matches, jsonStringMatches, matchEntries, entryStep, lookup,
    typeString, interfaceEq]

/-- C1 (amended): whenever some key of the pattern maps to a nested
object, the target maps the same key to a nested object, and the
recursive comparison of those nested objects succeeds, jsonStringMatches
never returns a true verdict; and when the loop reaches that entry first
(and the Strict length gate does not fire), the successful recursive call
falls through the switch to the interface comparison of two map-typed
values and the call panics (returns no verdict).  An entry processed
earlier may still fail and return false. -/
theorem c1_nested_object_panic :
    ∀ (m : Bool) (pat tgt : JObject) (k : String) (o1 o2 : JObject),
      lookup k pat = some (JsonValue.obj o1) →
      lookup k tgt = some (JsonValue.obj o2) →
      jsonStringMatches o1 o2 m = some true →
      jsonStringMatches pat tgt m ≠ some true ∧
        ∀ rest : JObject, pat = (k, JsonValue.obj o1) :: rest →
          (m = true → pat.length = tgt.length) →
          jsonStringMatches pat tgt m = none := by
  intro m pat tgt k o1 o2 hp ht _
  constructor
  · intro habs
    exact entryStep_obj_ne_true k o1 tgt m
      (matchEntries_true_lookup (matchEntries_of_true habs) hp)
  · intro rest hpat hgate
    rw [jsonStringMatches_no_gate hgate, hpat]
    apply matchEntries_cons_none
    rw [entryStep_obj o1 m ht]
    have hrec : jsonStringMatches o1 o2 m = some true := by assumption
    rw [hrec]

theorem c1_nested_object_panic_witness :
    jsonStringMatches [("k", JsonValue.obj [])] [("k", JsonValue.obj [])]
      false = none :=
  (c1_nested_object_panic false [("k", JsonValue.obj [])]
      [("k", JsonValue.obj [])] "k" [] [] (by simp [lookup])
      (by simp [lookup]) (by simp [jsonStringMatches, matchEntries])).2
    [] rfl (by simp)

/-- C9: a pattern key absent from the target can never yield a true
verdict in either mode, and matches(pattern with only the null-valued
key x, empty target) is indeed false; but the claim's universal "both
return false" fails, because an earlier nested-object entry that matches
successfully panics before the loop reaches the missing key: for
p = ("a" mapsto nested empty object, "x" mapsto 1) and t = ("a" mapsto
nested empty object), Matches p t returns no verdict at all. -/
theorem c9_missing_field :
    (∀ (p t : JObject) (k : String) (v : JsonValue) (m : Bool),
        lookup k p = some v → lookup k t = none →
        jsonStringMatches p t m ≠ some true) ∧
      Matches [("a", JsonValue.obj []), ("x", JsonValue.num 1)]
        [("a", JsonValue.obj [])] = none ∧
      Matches [("x", JsonValue.null)] [] = some false := by
  refine ⟨?_, ?_, ?_⟩
  · intro p t k v m hp ht habs
    have hstep := matchEntries_true_lookup (matchEntries_of_true habs) hp
    rw [entryStep_not_found v m ht] at hstep
    simp at hstep
  · simp [Matches, jsonStringMatches, matchEntries, entryStep, lookup,
      typeString, interfaceEq]
  · simp [Matches, jsonStringMatches, matchEntries, entryStep, lookup]

theorem c9_missing_field_witness :
    jsonStringMatches [("x", JsonValue.null)] [] false ≠ some true :=
  c9_missing_field.1 _ _ "x" JsonValue.null false (by simp [lookup]) rfl

theorem lookup_none_keys {k : String} :
    ∀ {l : JObject}, lookup k l = none → ∀ p ∈ l, p.1 ≠ k := by
  intro l
  induction l with
  | nil => intro _ p hp; simp at hp
  | cons hd rest ih =>
    obtain ⟨k1, v1⟩ := hd
    intro h p hp
    rw [lookup_cons] at h
    by_cases hk : k1 = k
    · rw [if_pos hk] at h; simp at h
    · rw [if_neg hk] at h
      rcases List.mem_cons.mp hp with rfl | hp2
      · simpa using hk
      · exact ih h p hp2

theorem lookup_append_ne {k k0 : String} (v0 : JsonValue) (h : k0 ≠ k) :
    ∀ t : JObject, lookup k (t ++ [(k0, v0)]) = lookup k t := by
  intro t
  induction t with
  | nil => simp [lookup, h]
  | cons hd rest ih =>
    obtain ⟨k1, v1⟩ := hd
    rw [List.cons_append, lookup_cons, lookup_cons, ih]

theorem entryStep_congr (k : String) (v : JsonValue) {t1 t2 : JObject}
    (m : Bool) (h : lookup k t1 = lookup k t2) :
    entryStep k v t1 m = entryStep k v t2 m := by
  rcases hl : lookup k t2 with _ | w
  · rw [entryStep_not_found v m (h.trans hl), entryStep_not_found v m hl]
  · have h1 : lookup k t1 = some w := h.trans hl
    by_cases ht : typeString v = typeString w
    · cases v with
      | obj o1 =>
        obtain ⟨o2, rfl⟩ := typeString_eq_obj ht
        rw [entryStep_obj o1 m h1, entryStep_obj o1 m hl]
      | arr items =>
        obtain ⟨other, rfl⟩ := typeString_eq_arr ht
        rw [entryStep_arr items m h1, entryStep_arr items m hl]
      | null => rw [entryStep_scalar m (by rfl) h1 ht, entryStep_scalar m (by rfl) hl ht]
      | bool b => rw [entryStep_scalar m (by rfl) h1 ht, entryStep_scalar m (by rfl) hl ht]
      | num x => rw [entryStep_scalar m (by rfl) h1 ht, entryStep_scalar m (by rfl) hl ht]
      | str s => rw [entryStep_scalar m (by rfl) h1 ht, entryStep_scalar m (by rfl) hl ht]
    · rw [entryStep_type_ne m h1 ht, entryStep_type_ne m hl ht]

theorem matchEntries_congr :
    ∀ {entries : JObject} {t1 t2 : JObject} {m : Bool},
      (∀ p ∈ entries, lookup p.1 t1 = lookup p.1 t2) →
      matchEntries entries t1 m = matchEntries entries t2 m := by
  intro entries
  induction entries with
  | nil => intro t1 t2 m _; rw [matchEntries_nil, matchEntries_nil]
  | cons hd rest ih =>
    obtain ⟨k1, v1⟩ := hd
    intro t1 t2 m h
    have he := entryStep_congr k1 v1 m (h (k1, v1) (by simp))
    rcases hs : entryStep k1 v1 t2 m with _ | b
    · rw [matchEntries_cons_none rest (he.trans hs),
        matchEntries_cons_none rest hs]
    · cases b
      · rw [matchEntries_cons_false rest (he.trans hs),
          matchEntries_cons_false rest hs]
      · rw [matchEntries_cons_true rest (he.trans hs),
          matchEntries_cons_true rest hs]
        exact ih fun p hp => h p (by simp [hp])

/-- C6: the top-level field-count gate is Strict-only.  Equals returns
false outright whenever the two top-level objects have different field
counts; Matches performs no field-count check, so appending to the
target an extra top-level key not present in the pattern leaves the
Matches result unchanged, while it makes Equals false whenever the two
field counts previously agreed. -/
theorem c6_field_count_gate :
    ∀ (p t : JObject) (k : String) (v : JsonValue),
      lookup k p = none →
      Matches p (t ++ [(k, v)]) = Matches p t ∧
        (p.length = t.length → Equals p (t ++ [(k, v)]) = some false) ∧
        ∀ q r : JObject, q.length ≠ r.length → Equals q r = some false := by
  intro p t k v h
  refine ⟨?_, ?_, ?_⟩
  · simp only [Matches, jsonStringMatches_false_mode]
    apply matchEntries_congr
    intro pr hpr
    exact lookup_append_ne v (Ne.symm (lookup_none_keys h pr hpr)) t
  · intro hlen
    simp only [Equals]
    apply jsonStringMatches_len_ne
    simp only [List.length_append, List.length_cons, List.length_nil, hlen]
    omega
  · intro q r hqr
    simp only [Equals]
    exact jsonStringMatches_len_ne hqr

theorem c6_field_count_gate_witness :
    Matches [("a", JsonValue.num 1)]
        ([("a", JsonValue.num 1)] ++ [("b", JsonValue.num 2)]) =
        Matches [("a", JsonValue.num 1)] [("a", JsonValue.num 1)] ∧
      Equals [("a", JsonValue.num 1)]
        ([("a", JsonValue.num 1)] ++ [("b", JsonValue.num 2)]) = some false :=
  ⟨(c6_field_count_gate _ _ "b" (JsonValue.num 2) (by simp [lookup])).1,
    (c6_field_count_gate _ _ "b" (JsonValue.num 2) (by simp [lookup])).2.1 rfl⟩

theorem updateKey_length (k : String) (v : JsonValue) :
    ∀ t : JObject, (updateKey k v t).length = t.length := by
  intro t
  induction t with
  | nil => rfl
  | cons hd rest ih =>
    obtain ⟨k1, w⟩ := hd
    by_cases h : k1 = k <;> simp [updateKey, h, ih]

theorem lookup_updateKey_self {k : String} (v : JsonValue) :
    ∀ {t : JObject} {w : JsonValue}, lookup k t = some w →
      lookup k (updateKey k v t) = some v := by
  intro t
  induction t with
  | nil => intro w h; simp [lookup] at h
  | cons hd rest ih =>
    obtain ⟨k1, w1⟩ := hd
    intro w h
    rw [lookup_cons] at h
    by_cases hk : k1 = k
    · simp [updateKey, hk, lookup_cons]
    · rw [if_neg hk] at h
      simp only [updateKey, if_neg hk, lookup_cons]
      exact ih h

theorem lookup_updateKey_ne {k k1 : String} (v : JsonValue) (h : k1 ≠ k) :
    ∀ t : JObject, lookup k1 (updateKey k v t) = lookup k1 t := by
  intro t
  induction t with
  | nil => rfl
  | cons hd rest ih =>
    obtain ⟨k2, w⟩ := hd
    by_cases hk : k2 = k
    · have hne : ¬ k = k1 := fun hc => h hc.symm
      simp [updateKey, hk, lookup_cons, hne]
    · simp only [updateKey, if_neg hk, lookup_cons]
      by_cases h2 : k2 = k1
      · simp [h2]
      · simp [h2, ih]

theorem matchEntries_update_append {k : String} {items other : List JsonValue}
    {m : Bool} (x : JsonValue) :
    ∀ {pat : JObject} {tgt : JObject},
      lookup k pat = some (JsonValue.arr items) →
      lookup k tgt = some (JsonValue.arr other) →
      matchEntries pat tgt m = some true →
      matchEntries pat (updateKey k (JsonValue.arr (other ++ [x])) tgt) m =
        some false := by
  intro pat
  induction pat with
  | nil => intro tgt hp _ _; simp [lookup] at hp
  | cons hd rest ih =>
    obtain ⟨k1, v1⟩ := hd
    intro tgt hp ht htrue
    rw [matchEntries_cons_true_iff] at htrue
    obtain ⟨hstep, hrest⟩ := htrue
    rw [lookup_cons] at hp
    by_cases hk : k1 = k
    · subst hk
      rw [if_pos rfl] at hp
      cases hp
      rw [entryStep_arr items m ht] at hstep
      by_cases hl : items.length = other.length
      · have ht2 : lookup k1 (updateKey k1 (JsonValue.arr (other ++ [x])) tgt) =
            some (JsonValue.arr (other ++ [x])) := lookup_updateKey_self _ ht
        apply matchEntries_cons_false
        rw [entryStep_arr items m ht2, if_pos]
        simp only [List.length_append, List.length_cons, List.length_nil]
        omega
      · rw [if_pos hl] at hstep
        simp at hstep
    · rw [if_neg hk] at hp
      have hlk : lookup k1 (updateKey k (JsonValue.arr (other ++ [x])) tgt) =
          lookup k1 tgt := lookup_updateKey_ne _ hk tgt
      have hstep2 :
          entryStep k1 v1 (updateKey k (JsonValue.arr (other ++ [x])) tgt) m =
            some true := (entryStep_congr k1 v1 m hlk).trans hstep
      rw [matchEntries_cons_true rest hstep2]
      exact ih hp ht hrest

/-- C5: the array length check is unconditional in both modes: a pattern
field and target field that are both arrays can only pass when their
lengths agree (the comparison never returns true otherwise), and
appending any element to the target array of a previously matching pair
flips the whole verdict from true to false, in Subset and Strict mode
alike. -/
theorem c5_array_length_unconditional :
    ∀ (m : Bool) (pat tgt : JObject) (k : String)
      (items other : List JsonValue) (x : JsonValue),
      lookup k pat = some (JsonValue.arr items) →
      lookup k tgt = some (JsonValue.arr other) →
      (items.length ≠ other.length → jsonStringMatches pat tgt m ≠ some true) ∧
        (jsonStringMatches pat tgt m = some true →
          jsonStringMatches pat
            (updateKey k (JsonValue.arr (other ++ [x])) tgt) m = some false) := by
  intro m pat tgt k items other x hp ht
  constructor
  · intro hne habs
    have hstep := matchEntries_true_lookup (matchEntries_of_true habs) hp
    rw [entryStep_arr items m ht, if_pos hne] at hstep
    simp at hstep
  · intro htrue
    have hgate : m = true → pat.length = tgt.length := fun hm =>
      jsonStringMatches_true_length (hm ▸ htrue)
    have hgate2 : m = true →
        pat.length = (updateKey k (JsonValue.arr (other ++ [x])) tgt).length :=
      fun hm => (hgate hm).trans (updateKey_length k _ tgt).symm
    rw [jsonStringMatches_no_gate hgate2]
    rw [jsonStringMatches_no_gate hgate] at htrue
    exact matchEntries_update_append x hp ht htrue

theorem c5_array_length_unconditional_witness :
    jsonStringMatches [("k", JsonValue.arr [JsonValue.num 1])]
      (updateKey "k" (JsonValue.arr ([JsonValue.num 1] ++ [JsonValue.num 2]))
        [("k", JsonValue.arr [JsonValue.num 1])]) false = some false :=
  (c5_array_length_unconditional false _ _ "k" [JsonValue.num 1]
      [JsonValue.num 1] (JsonValue.num 2) (by simp [lookup])
      (by simp [lookup])).2
    (by simp [jsonStringMatches, matchEntries, entryStep, matchArrayItems,
      searchItem, elemCompare, lookup, typeString, interfaceEq])

theorem searchItem_of_mem {x : JsonValue} (hs : isScalar x = true) :
    ∀ {l : List JsonValue}, x ∈ l → ∀ m, searchItem x l m = some true := by
  intro l
  induction l with
  | nil => intro h; simp at h
  | cons y rest ih =>
    intro hmem m
    rcases List.mem_cons.mp hmem with rfl | hmem2
    · exact searchItem_cons_found rest rfl
        ((elemCompare_scalar x m hs).trans (interfaceEq_self_scalar hs))
    · by_cases ht : typeString x = typeString y
      · rcases he : interfaceEq x y with _ | b
        · exact absurd he (interfaceEq_scalar_ne_none hs ht)
        · cases b
          · rw [searchItem_cons_miss rest ht
              ((elemCompare_scalar y m hs).trans he)]
            exact ih hmem2 m
          · exact searchItem_cons_found rest ht
              ((elemCompare_scalar y m hs).trans he)
      · rw [searchItem_cons_skip rest m ht]
        exact ih hmem2 m

theorem matchArrayItems_scalar_all {m : Bool} {b : List JsonValue} :
    ∀ {a : List JsonValue}, (∀ v ∈ a, isScalar v = true ∧ v ∈ b) →
      matchArrayItems a b m = some true := by
  intro a
  induction a with
  | nil => intro _; exact matchArrayItems_nil b m
  | cons x rest ih =>
    intro h
    obtain ⟨hs, hmem⟩ := h x (by simp)
    rw [matchArrayItems_cons_true rest (searchItem_of_mem hs hmem m)]
    exact ih fun v hv => h v (by simp [hv])

/-- C7 counterexample: array order independence fails as stated: for the
array whose single element is the empty nested array (and its identity
permutation), the search compares two elements of slice type with the
interface comparison, which panics; matches returns no verdict, hence
not true. -/
theorem c7_counterexample :
    ([JsonValue.arr []]).Perm [JsonValue.arr []] ∧
      Matches [("k", JsonValue.arr [JsonValue.arr []])]
        [("k", JsonValue.arr [JsonValue.arr []])] = none := by
  refine ⟨List.Perm.refl _, ?_⟩
  simp [Matches, jsonStringMatches, matchEntries, entryStep, matchArrayItems,
    searchItem, elemCompare, lookup, typeString, interfaceEq]

/-- C7 (amended): array order independence holds for arrays of scalar
elements (null, bool, number, string): for every such array and every
permutation of it, matches of the two singleton objects holding them is
true.  (Array or object elements can instead make the call panic, as the
counterexample shows.) -/
theorem c7_scalar_perm_order_independence :
    ∀ (k : String) (a b : List JsonValue), a.Perm b →
      (∀ v ∈ a, isScalar v = true) →
      Matches [(k, JsonValue.arr a)] [(k, JsonValue.arr b)] = some true := by
  intro k a b hperm hs
  simp only [Matches, jsonStringMatches_false_mode]
  have hlk : lookup k [(k, JsonValue.arr b)] = some (JsonValue.arr b) := by
    simp [lookup]
  have hstep : entryStep k (JsonValue.arr a) [(k, JsonValue.arr b)] false =
      some true := by
    rw [entryStep_arr a false hlk]
    have hlen := hperm.length_eq
    rw [if_neg (by omega)]
    exact matchArrayItems_scalar_all fun v hv => ⟨hs v hv, hperm.subset hv⟩
  rw [matchEntries_cons_true [] hstep]
  exact matchEntries_nil _ _

theorem c7_scalar_perm_order_independence_witness :
    Matches [("k", JsonValue.arr [JsonValue.num 1, JsonValue.str "s"])]
      [("k", JsonValue.arr [JsonValue.str "s", JsonValue.num 1])] = some true :=
  c7_scalar_perm_order_independence "k" _ _
    (List.Perm.swap (JsonValue.str "s") (JsonValue.num 1) [])
    (by intro v hv
        rcases List.mem_cons.mp hv with rfl | hv2
        · rfl
        · rcases List.mem_cons.mp hv2 with rfl | hv3
          · rfl
          · simp at hv3)

theorem searchItem_scalar_mode (x : JsonValue) (hs : isScalar x = true) :
    ∀ (l : List JsonValue) (m m2 : Bool), searchItem x l m = searchItem x l m2 := by
  intro l
  induction l with
  | nil => intro m m2; rw [searchItem_nil, searchItem_nil]
  | cons y rest ih =>
    intro m m2
    by_cases ht : typeString x = typeString y
    · rcases he : interfaceEq x y with _ | b
      · exact absurd he (interfaceEq_scalar_ne_none hs ht)
      · cases b
        · rw [searchItem_cons_miss rest ht ((elemCompare_scalar y m hs).trans he),
            searchItem_cons_miss rest ht ((elemCompare_scalar y m2 hs).trans he)]
          exact ih m m2
        · rw [searchItem_cons_found rest ht ((elemCompare_scalar y m hs).trans he),
            searchItem_cons_found rest ht ((elemCompare_scalar y m2 hs).trans he)]
    · rw [searchItem_cons_skip rest m ht, searchItem_cons_skip rest m2 ht]
      exact ih m m2

theorem searchItem_obj_exists {o1 : JObject} {m : Bool} :
    ∀ {l : List JsonValue}, searchItem (JsonValue.obj o1) l m = some true →
      ∃ o2, JsonValue.obj o2 ∈ l ∧ jsonStringMatches o1 o2 m = some true := by
  intro l
  induction l with
  | nil => intro h; rw [searchItem_nil] at h; simp at h
  | cons y rest ih =>
    intro h
    by_cases ht : typeString (JsonValue.obj o1) = typeString y
    · obtain ⟨o2, rfl⟩ := typeString_eq_obj ht
      rcases hr : jsonStringMatches o1 o2 m with _ | b
      · rw [searchItem_cons_none rest ht
          ((elemCompare_obj o1 o2 m).trans hr)] at h
        simp at h
      · cases b
        · rw [searchItem_cons_miss rest ht
            ((elemCompare_obj o1 o2 m).trans hr)] at h
          obtain ⟨o3, hmem, hm⟩ := ih h
          exact ⟨o3, by simp [hmem], hm⟩
        · exact ⟨o2, by simp, hr⟩
    · rw [searchItem_cons_skip rest m ht] at h
      obtain ⟨o3, hmem, hm⟩ := ih h
      exact ⟨o3, by simp [hmem], hm⟩

theorem searchItem_arr_ne_true {a : List JsonValue} {m : Bool} :
    ∀ {l : List JsonValue}, searchItem (JsonValue.arr a) l m ≠ some true := by
  intro l
  induction l with
  | nil => rw [searchItem_nil]; simp
  | cons y rest ih =>
    by_cases ht : typeString (JsonValue.arr a) = typeString y
    · obtain ⟨b, rfl⟩ := typeString_eq_arr ht
      rw [searchItem_cons_none rest ht (elemCompare_arr a b m)]
      simp
    · rw [searchItem_cons_skip rest m ht]
      exact ih

theorem searchItem_scalar_ne_none (x : JsonValue) (hs : isScalar x = true) :
    ∀ (l : List JsonValue) (m : Bool), searchItem x l m ≠ none := by
  intro l
  induction l with
  | nil => intro m; rw [searchItem_nil]; simp
  | cons y rest ih =>
    intro m
    by_cases ht : typeString x = typeString y
    · rcases he : interfaceEq x y with _ | b
      · exact absurd he (interfaceEq_scalar_ne_none hs ht)
      · cases b
        · rw [searchItem_cons_miss rest ht ((elemCompare_scalar y m hs).trans he)]
          exact ih m
        · rw [searchItem_cons_found rest ht ((elemCompare_scalar y m hs).trans he)]
          simp
    · rw [searchItem_cons_skip rest m ht]
      exact ih m

theorem searchItem_obj_ne_none {o1 : JObject}
    (hnp : ∀ d, jsonStringMatches o1 d false ≠ none) :
    ∀ (l : List JsonValue), searchItem (JsonValue.obj o1) l false ≠ none := by
  intro l
  induction l with
  | nil => rw [searchItem_nil]; simp
  | cons y rest ih =>
    by_cases ht : typeString (JsonValue.obj o1) = typeString y
    · obtain ⟨o2, rfl⟩ := typeString_eq_obj ht
      rcases hr : jsonStringMatches o1 o2 false with _ | b
      · exact absurd hr (hnp o2)
      · cases b
        · rw [searchItem_cons_miss rest ht
            ((elemCompare_obj o1 o2 false).trans hr)]
          exact ih
        · rw [searchItem_cons_found rest ht
            ((elemCompare_obj o1 o2 false).trans hr)]
          simp
    · rw [searchItem_cons_skip rest false ht]
      exact ih

theorem searchItem_strict_to_subset {N : Nat} (hIH : IHprop N) :
    ∀ (x : JsonValue), sizeOf x < N → ∀ (l : List JsonValue),
      searchItem x l true = some true → searchItem x l false = some true := by
  intro x hx
  cases x with
  | arr a => intro l h; exact absurd h searchItem_arr_ne_true
  | obj o1 =>
    have ho1 : sizeOf o1 < N := by
      have := JsonValue.obj.sizeOf_spec o1
      omega
    intro l
    induction l with
    | nil => intro h; rw [searchItem_nil] at h; simp at h
    | cons y rest ih =>
      intro h
      by_cases ht : typeString (JsonValue.obj o1) = typeString y
      · obtain ⟨o2, rfl⟩ := typeString_eq_obj ht
        rcases hr : jsonStringMatches o1 o2 true with _ | b
        · rw [searchItem_cons_none rest ht
            ((elemCompare_obj o1 o2 true).trans hr)] at h
          simp at h
        · cases b

          · rw [searchItem_cons_miss rest ht
              ((elemCompare_obj o1 o2 true).trans hr)] at h
            obtain ⟨o3, _, hstrict⟩ := searchItem_obj_exists h
            obtain ⟨hnp, _⟩ := hIH o1 ho1 o3 hstrict
            rcases hr2 : jsonStringMatches o1 o2 false with _ | b2
            · exact absurd hr2 (hnp o2)
            · cases b2
              · rw [searchItem_cons_miss rest ht
                  ((elemCompare_obj o1 o2 false).trans hr2)]
                exact ih h
              · exact searchItem_cons_found rest ht
                  ((elemCompare_obj o1 o2 false).trans hr2)
          · have hsub := (hIH o1 ho1 o2 hr).2
            exact searchItem_cons_found rest ht
              ((elemCompare_obj o1 o2 false).trans hsub)
      · rw [searchItem_cons_skip rest true ht] at h
        rw [searchItem_cons_skip rest false ht]
        exact ih h
  | null =>
    intro l h
    rw [searchItem_scalar_mode JsonValue.null rfl l false true]
    exact h
  | bool b =>
    intro l h
    rw [searchItem_scalar_mode (JsonValue.bool b) rfl l false true]
    exact h
  | num q =>
    intro l h
    rw [searchItem_scalar_mode (JsonValue.num q) rfl l false true]
    exact h
  | str s =>
    intro l h
    rw [searchItem_scalar_mode (JsonValue.str s) rfl l false true]
    exact h

theorem matchArrayItems_strict_to_subset {N : Nat} (hIH : IHprop N) :
    ∀ (items : List JsonValue), sizeOf items ≤ N → ∀ (other : List JsonValue),
      matchArrayItems items other true = some true →
      (∀ other2, matchArrayItems items other2 false ≠ none) ∧
        matchArrayItems items other false = some true := by
  intro items
  induction items with
  | nil =>
    intro _ other _
    exact ⟨fun o2 => by rw [matchArrayItems_nil]; simp,
      matchArrayItems_nil other false⟩
  | cons x rest ih =>
    intro hsz other h
    rw [matchArrayItems_cons_true_iff] at h
    obtain ⟨hx, hrest⟩ := h
    have hcs := List.cons.sizeOf_spec x rest
    have hszx : sizeOf x < N := by omega
    have hszr : sizeOf rest ≤ N := by omega
    obtain ⟨ihnp, ihtrue⟩ := ih hszr other hrest
    constructor
    · intro other2
      have hsi : searchItem x other2 false ≠ none := by
        cases x with
        | arr a => exact absurd hx searchItem_arr_ne_true
        | obj o1 =>
          obtain ⟨o3, _, hstrict⟩ := searchItem_obj_exists hx
          have ho1 : sizeOf o1 < N := by
            have := JsonValue.obj.sizeOf_spec o1
            omega
          exact searchItem_obj_ne_none (hIH o1 ho1 o3 hstrict).1 other2
        | null => exact searchItem_scalar_ne_none JsonValue.null rfl other2 false
        | bool b => exact searchItem_scalar_ne_none (JsonValue.bool b) rfl other2 false
        | num q => exact searchItem_scalar_ne_none (JsonValue.num q) rfl other2 false
        | str s => exact searchItem_scalar_ne_none (JsonValue.str s) rfl other2 false
      rcases hs2 : searchItem x other2 false with _ | b
      · exact absurd hs2 hsi
      · cases b
        · rw [matchArrayItems_cons_false rest hs2]; simp
        · rw [matchArrayItems_cons_true rest hs2]
          exact ihnp other2
    · rw [matchArrayItems_cons_true rest
        (searchItem_strict_to_subset hIH x hszx other hx)]
      exact ihtrue

theorem entryStep_strict_to_subset {N : Nat} (hIH : IHprop N) :
    ∀ (k : String) (v : JsonValue), sizeOf v < N → ∀ (t : JObject),
      entryStep k v t true = some true →
      (∀ d, entryStep k v d false ≠ none) ∧ entryStep k v t false = some true := by
  intro k v hv t h
  rcases hl : lookup k t with _ | w
  · rw [entryStep_not_found v true hl] at h; simp at h
  · by_cases ht : typeString v = typeString w
    · by_cases hsv : isScalar v = true
      · rw [entryStep_scalar true hsv hl ht] at h
        refine ⟨?_, ?_⟩
        · intro d
          rcases hld : lookup k d with _ | w2
          · rw [entryStep_not_found v false hld]; simp
          · by_cases ht2 : typeString v = typeString w2
            · rw [entryStep_scalar false hsv hld ht2]
              exact interfaceEq_scalar_ne_none hsv ht2
            · rw [entryStep_type_ne false hld ht2]; simp
        · rw [entryStep_scalar false hsv hl ht]
          exact h
      · cases v with
        | arr items =>
          obtain ⟨other, rfl⟩ := typeString_eq_arr ht
          rw [entryStep_arr items true hl] at h
          by_cases hlen : items.length = other.length
          · rw [if_neg (by omega)] at h
            have hszi : sizeOf items < N := by
              have := JsonValue.arr.sizeOf_spec items
              omega
            obtain ⟨manp, matrue⟩ :=
              matchArrayItems_strict_to_subset hIH items (le_of_lt hszi) other h
            refine ⟨?_, ?_⟩
            · intro d
              rcases hld : lookup k d with _ | w2
              · rw [entryStep_not_found _ false hld]; simp
              · by_cases ht2 : typeString (JsonValue.arr items) = typeString w2
                · obtain ⟨other2, rfl⟩ := typeString_eq_arr ht2
                  rw [entryStep_arr items false hld]
                  by_cases hl2 : items.length = other2.length
                  · rw [if_neg (by omega)]
                    exact manp other2
                  · rw [if_pos (by omega)]; simp
                · rw [entryStep_type_ne false hld ht2]; simp
            · rw [entryStep_arr items false hl, if_neg (by omega)]
              exact matrue
          · rw [if_pos (by omega)] at h; simp at h
        | obj o1 => exact absurd h (entryStep_obj_ne_true k o1 t true)
        | null => simp [isScalar] at hsv
        | bool b => simp [isScalar] at hsv
        | num q => simp [isScalar] at hsv
        | str s => simp [isScalar] at hsv
    · rw [entryStep_type_ne true hl ht] at h
      simp at h

theorem matchEntries_strict_to_subset {N : Nat} (hIH : IHprop N) :
    ∀ (entries : JObject), sizeOf entries ≤ N → ∀ (t : JObject),
      matchEntries entries t true = some true →
      (∀ d, matchEntries entries d false ≠ none) ∧
        matchEntries entries t false = some true := by
  intro entries
  induction entries with
  | nil =>
    intro _ t _
    exact ⟨fun d => by rw [matchEntries_nil]; simp, matchEntries_nil t false⟩
  | cons hd rest ih =>
    obtain ⟨k1, v1⟩ := hd
    intro hsz t h
    rw [matchEntries_cons_true_iff] at h
    obtain ⟨hstep, hrest⟩ := h
    have hcs := List.cons.sizeOf_spec (k1, v1) rest
    have hps := Prod.mk.sizeOf_spec k1 v1
    have hszv : sizeOf v1 < N := by omega
    have hszr : sizeOf rest ≤ N := by omega
    obtain ⟨enp, etrue⟩ := entryStep_strict_to_subset hIH k1 v1 hszv t hstep
    obtain ⟨mnp, mtrue⟩ := ih hszr t hrest
    refine ⟨?_, ?_⟩
    · intro d
      rcases hs2 : entryStep k1 v1 d false with _ | b
      · exact absurd hs2 (enp d)
      · cases b
        · rw [matchEntries_cons_false rest hs2]; simp
        · rw [matchEntries_cons_true rest hs2]
          exact mnp d
    · rw [matchEntries_cons_true rest etrue]
      exact mtrue

theorem strict_to_subset_aux :
    ∀ (N : Nat) (p : JObject), sizeOf p ≤ N → ∀ t : JObject,
      jsonStringMatches p t true = some true →
      (∀ d, jsonStringMatches p d false ≠ none) ∧
        jsonStringMatches p t false = some true := by
  intro N
  induction N with
  | zero =>
    intro p hp
    exfalso
    cases p with
    | nil =>
      have h1 : sizeOf ([] : JObject) = 1 := rfl
      omega
    | cons hd tl =>
      have := List.cons.sizeOf_spec hd tl
      omega
  | succ n ihn =>
    intro p hp t htrue
    have hIH : IHprop (n + 1) := by
      intro o ho
      exact ihn o (by omega)
    have hlen := jsonStringMatches_true_length htrue
    rw [jsonStringMatches_len_eq hlen] at htrue
    obtain ⟨hnp, htr⟩ := matchEntries_strict_to_subset hIH p hp t htrue
    refine ⟨fun d => ?_, ?_⟩
    · rw [jsonStringMatches_false_mode]
      exact hnp d
    · rw [jsonStringMatches_false_mode]
      exact htr

/-- C8: Subset monotonicity: whenever Equals (Strict mode) returns true
for a pattern and target, Matches (Subset mode) on the same pair also
returns true.  A strict success rules out every panic source along the
subset run, and any candidate the strict scan accepted is also accepted
by the subset scan. -/
theorem c8_subset_monotonicity :
    ∀ p t : JObject, Equals p t = some true → Matches p t = some true := by
  intro p t h
  simp only [Equals] at h
  simp only [Matches]
  exact (strict_to_subset_aux (sizeOf p) p le_rfl t h).2

theorem c8_subset_monotonicity_witness :
    Matches [("a", JsonValue.num 1)] [("a", JsonValue.num 1)] = some true :=
  c8_subset_monotonicity _ _
    (by simp [Equals, jsonStringMatches, matchEntries, entryStep, lookup,
      typeString, interfaceEq])

end Stub
